import Mathlib

/-!
Verification of the influx-killer stress tool (src/main.go) against its
natural-language specification.

The development shallowly embeds the program:

* `Point`, `generate` — the synthetic point generation performed by
  `Worker.Write` (main.go lines 98–133), with the two pseudo-random draws
  (`rand.Intn(len(regions))` and `rand.Float64()`) abstracted as oracle
  functions constrained exactly as Go's `math/rand` documents them.
* `goTruncToInt`, `deadlineTimerNanos`, `workerIntervalNanos` — the two
  float-seconds-to-`time.Duration` conversions at main.go lines 212 and 152.
* `startStressValidate` — the configuration checks at main.go lines 168–173.
* `WorkerRec`, `workIter`, `workLoop` — the data carried by a `Worker`
  (main.go lines 42–50) threaded through the `Work` loop (lines 59–95).
* `Sys`, `Step`, `Exec` — a labelled small-step interleaving semantics of
  `startStress` (main.go lines 158–219): the main goroutine blocked on the
  deadline timer, the signal-listener goroutine, the buffered `cancel`
  channel of capacity `nw`, the unbuffered `done` channel (a rendezvous with
  the main goroutine's `await_workers` loop), and one goroutine per
  successfully constructed worker running `Worker.Work` (lines 59–95).

Machine integers are modelled as `Int`/`Nat` (the durations involved are far
below the `int64` range of Go's `time.Duration`, so wrap-around never
matters), and Go `float64` configuration values as `ℚ` (the claims under
study concern truncation of fractional seconds, which rationals capture
exactly).
-/

/- ----------------------------------------------------------------- -/
/- Point batch generation: `Worker.Write`, main.go lines 98–133.     -/
/- ----------------------------------------------------------------- -/

/-- The fixed region tag set, main.go lines 52–57. -/
def regions : List String := ["eu-west-1", "eu-west-2", "us-east-1", "us-east-2"]

/-- One generated point, as built in the loop body of `Worker.Write`
(main.go lines 111–131): measurement `"cpu_usage"`, tags `cpu`, `host`,
`region`, fields `idle` and `busy`.  The timestamp (`time.Now()`) is not
modelled; no claim mentions it. -/
structure Point where
  measurement : String
  cpuTag : String
  hostTag : String
  regionTag : String
  idle : ℚ
  busy : ℚ
  deriving Repr, DecidableEq

/-- The loop body of `Worker.Write` for index `i`: `regionIdx i` embeds the
draw `rand.Intn(len(regions))` and `unitRand i` the draw `rand.Float64()`
(main.go lines 112–121).  `max` is the local constant `100.0` of line 110. -/
def genPoint (host : String) (regionIdx : Nat) (unitRand : ℚ) : Point :=
  let max : ℚ := 100
  let idle := unitRand * max
  { measurement := "cpu_usage"
    cpuTag := "cpu-total"
    hostTag := host
    regionTag := regions.getD regionIdx ""
    idle := idle
    busy := max - idle }

/-- The point batch built by `Worker.Write` (main.go lines 111–131): the loop
`for i := 0; i < w.NumPoints; i++` adds one point per index.  `ridx` and
`urand` are the streams of pseudo-random draws consumed at index `i`. -/
def generate (count : Nat) (host : String)
    (ridx : Nat → Nat) (urand : Nat → ℚ) : List Point :=
  (List.range count).map (fun i => genPoint host (ridx i) (urand i))

/- ----------------------------------------------------------------- -/
/- Duration conversions: main.go lines 212 and 152.                  -/
/- ----------------------------------------------------------------- -/

/-- Go's conversion of a `float64` to the integer type `time.Duration`
truncates toward zero (Go spec: "the fraction is discarded"). -/
def goTruncToInt (q : ℚ) : ℤ := if 0 ≤ q then ⌊q⌋ else ⌈q⌉

/-- `time.Second` in nanoseconds. -/
def secondNs : ℤ := 1000000000

/-- `time.Millisecond` in nanoseconds. -/
def millisecondNs : ℤ := 1000000

/-- The duration the deadline timer is armed with, in nanoseconds:
`time.Second * time.Duration(to)` at main.go line 212, where `to` is the
`--timeout` flag value in (possibly fractional) seconds. -/
def deadlineTimerNanos (t : ℚ) : ℤ := secondNs * goTruncToInt t

/-- The worker sleep interval in nanoseconds:
`time.Duration(interval*1000) * time.Millisecond` at main.go line 152. -/
def workerIntervalNanos (interval : ℚ) : ℤ :=
  goTruncToInt (interval * 1000) * millisecondNs

/-- A duration of `q` seconds expressed exactly in nanoseconds, as a
rational: what "armed with exactly the configured test duration" denotes. -/
def exactNanos (q : ℚ) : ℚ := q * 1000000000

/- ----------------------------------------------------------------- -/
/- Configuration validation: `startStress`, main.go lines 168–173.   -/
/- ----------------------------------------------------------------- -/

/-- Outcome of the validation prefix of `startStress`: either a
`cli.NewExitError(msg, code)` is returned before any channel is created or
any worker launched, or control reaches the worker-launching part with the
requested worker count. -/
inductive StressOutcome where
  | exitError (msg : String) (code : Nat)
  | launched (numWorkers : Nat)
  deriving Repr, DecidableEq

/-- The validation prefix of `startStress` (main.go lines 168–173): the URL
check precedes the database check, and both precede channel creation and the
worker-launch loop. -/
def startStressValidate (url db : String) (nw : Nat) : StressOutcome :=
  if url = "" then .exitError "You must specify a URL" 1
  else if db = "" then .exitError "You must specify a database" 2
  else .launched nw

/- ----------------------------------------------------------------- -/
/- The Worker record and the frame of its Work loop.                 -/
/- ----------------------------------------------------------------- -/

/-- The fields of `Worker` (main.go lines 42–50).  The client and the two
channels are opaque handles; `Interval` is in nanoseconds. -/
structure WorkerRec where
  client : Nat
  hostname : String
  db : String
  numPoints : Int
  interval : Int
  doneCh : Nat
  cancelCh : Nat
  deriving Repr, DecidableEq

/-- External effects performed by the worker loop body. -/
inductive WorkEffect where
  | writeBatch (client : Nat) (db : String) (numPoints : Int)
  | sleep (nanos : Int)
  | closeClient (client : Nat)
  | sendDone (doneCh : Nat)
  deriving Repr, DecidableEq

/-- One non-cancel iteration of `Worker.Work` (main.go lines 75–93): the body
reads `w.NumPoints`, `w.Hostname`, `w.DB`, the client handle and
`w.Interval`, performs the write and the sleep, and contains no assignment
to any field of `w`, so the worker value is returned as received. -/
def workIter (w : WorkerRec) : WorkerRec × List WorkEffect :=
  (w, [.writeBatch w.client w.db w.numPoints, .sleep w.interval])

/-- `n` non-cancel iterations of the `Worker.Work` loop, threading the worker
value exactly as the Go method body does through its pointee. -/
def workLoop (w : WorkerRec) : Nat → WorkerRec
  | 0 => w
  | n + 1 => workLoop (workIter w).1 n

/-- The cancellation branch of `Worker.Work` (main.go lines 62–74): close the
client, send on `Done`, return.  No field of `w` is assigned. -/
def workCancelPath (w : WorkerRec) : WorkerRec × List WorkEffect :=
  (w, [.closeClient w.client, .sendDone w.doneCh])

/- ----------------------------------------------------------------- -/
/- Concurrency model of startStress, main.go lines 158–219.          -/
/- ----------------------------------------------------------------- -/

/-- Result of a fallible external call (`Client.Write`, `Client.Close`). -/
inductive CallRes where
  | ok
  | err
  deriving Repr, DecidableEq

/-- Program counter of one worker goroutine.  `notConstructed` marks an index
`i` for which `NewWorker` returned nil (main.go lines 140–146): no goroutine
is launched for it (line 202) and it never acts.  A constructed worker starts
in `starting` (the randomized startup delay, line 205), then runs the
`Worker.Work` loop (lines 59–95): `looping` is the top of the loop (the
`select` poll), `writing` the `w.Write()` call, `sleeping` the
`time.Sleep(w.Interval)`, `closing` the `w.Client.Close()` call of the cancel
branch, `sendingDone` the blocking send `w.Done <- true`, and `done` the
state after `return`. -/
inductive WState where
  | notConstructed
  | starting
  | looping
  | writing
  | sleeping
  | closing
  | sendingDone
  | done
  deriving Repr, DecidableEq

/-- Program counter of the main goroutine inside `startStress`:
blocked on `select { case <-time.After(...) }` (lines 211–214), then the
`cancel_workers` send loop with `k` sends performed (lines 179–183), then the
`await_workers` receive loop with `r` receives performed (lines 185–189),
then returned (line 218). -/
inductive MState where
  | blockedTimer
  | cancelling (k : Nat)
  | awaiting (r : Nat)
  | returned
  deriving Repr, DecidableEq

/-- Program counter of the signal-listener goroutine (lines 192–198):
blocked on `<-sig`, then its own `cancel_workers` send loop with `k` sends
performed, then finished. -/
inductive SState where
  | waitingSig
  | scancel (k : Nat)
  | sdone
  deriving Repr, DecidableEq

/-- Global state of one `startStress` run.  `ws` has one entry per requested
worker index; `cbuf` is the number of values buffered in the `cancel`
channel, which is created with capacity `nw` (line 176).  The `done` channel
(line 175) is unbuffered, so a send on it is a rendezvous with the main
goroutine's `await_workers` receive and needs no buffer field. -/
structure Sys where
  ws : List WState
  mainPC : MState
  sigPC : SState
  cbuf : Nat
  deriving Repr, DecidableEq

/-- Initial state: `ok` records, per requested index, whether `NewWorker`
succeeded (line 201).  Constructed workers begin in their startup delay. -/
def initSys (ok : List Bool) : Sys :=
  { ws := ok.map (fun b => if b then WState.starting else WState.notConstructed)
    mainPC := MState.blockedTimer
    sigPC := SState.waitingSig
    cbuf := 0 }

/-- Events labelling the transitions of one run. -/
inductive Ev where
  | timerFire
  | mainCancelSend
  | mainCancelFinish
  | mainReturn
  | sigArrive
  | sigCancelSend
  | sigCancelFinish
  | workerStart (i : Nat)
  | pollEmpty (i : Nat)
  | writeBatchEv (i : Nat) (res : CallRes)
  | sleepFinish (i : Nat)
  | takeCancel (i : Nat)
  | closeEv (i : Nat) (res : CallRes)
  | sendDoneEv (i : Nat)
  deriving Repr, DecidableEq

/-- One interleaving step of the system, labelled with its event.

* `timerFire`: the deadline timer delivers and the main goroutine's `select`
  (lines 211–214) returns; main enters its `cancel_workers` loop.
* `mainCancelSend` / `sigCancelSend`: one iteration of `cancel_workers`
  (lines 179–183): a send on the buffered `cancel` channel, enabled only
  while the buffer is below its capacity `ok.length`.
* `mainCancelFinish` / `sigCancelFinish`: the send loop ends after
  `ok.length` sends; main proceeds to `await_workers`.
* `mainReturn`: `await_workers` (lines 185–189) has performed `ok.length`
  receives and `startStress` returns (line 218).
* `sigArrive`: one of the recognized signals (line 191) is delivered and the
  listener goroutine wakes (line 193).
* `workerStart`: a constructed worker's startup delay (line 205) elapses and
  it enters the `Work` loop.
* `pollEmpty`: the `select` at the top of the loop (lines 61–77) finds the
  `cancel` channel empty and takes the `default` branch.  Go's `select`
  takes a ready communication when one exists, so this step is enabled only
  when the buffer is empty.
* `takeCancel`: the `select` finds a buffered value and takes the
  `case <-w.Cancel` branch, consuming it.
* `writeBatchEv`: the `w.Write()` call (line 82) returns with result `res`;
  the loop continues to the sleep regardless of `res` (lines 83–88 only log).
* `sleepFinish`: `time.Sleep(w.Interval)` (line 93) returns; back to the top.
* `closeEv`: `w.Client.Close()` (line 66) returns with result `res`; the
  worker proceeds to the done-send regardless of `res` (lines 67–72 only
  log).
* `sendDoneEv`: the unbuffered send `w.Done <- true` (line 73) rendezvouses
  with one `<-done` receive of `await_workers`, which is only executing
  while its loop index is below `ok.length`. -/
inductive Step (ok : List Bool) : Sys → Ev → Sys → Prop where
  | timerFire {s : Sys} :
      s.mainPC = MState.blockedTimer →
      Step ok s Ev.timerFire { s with mainPC := MState.cancelling 0 }
  | mainCancelSend {s : Sys} {k : Nat} :
      s.mainPC = MState.cancelling k → k < ok.length → s.cbuf < ok.length →
      Step ok s Ev.mainCancelSend
        { s with mainPC := MState.cancelling (k + 1), cbuf := s.cbuf + 1 }
  | mainCancelFinish {s : Sys} :
      s.mainPC = MState.cancelling ok.length →
      Step ok s Ev.mainCancelFinish { s with mainPC := MState.awaiting 0 }
  | mainReturn {s : Sys} :
      s.mainPC = MState.awaiting ok.length →
      Step ok s Ev.mainReturn { s with mainPC := MState.returned }
  | sigArrive {s : Sys} :
      s.sigPC = SState.waitingSig →
      Step ok s Ev.sigArrive { s with sigPC := SState.scancel 0 }
  | sigCancelSend {s : Sys} {k : Nat} :
      s.sigPC = SState.scancel k → k < ok.length → s.cbuf < ok.length →
      Step ok s Ev.sigCancelSend
        { s with sigPC := SState.scancel (k + 1), cbuf := s.cbuf + 1 }
  | sigCancelFinish {s : Sys} :
      s.sigPC = SState.scancel ok.length →
      Step ok s Ev.sigCancelFinish { s with sigPC := SState.sdone }
  | workerStart {s : Sys} {i : Nat} :
      s.ws[i]? = some WState.starting →
      Step ok s (Ev.workerStart i) { s with ws := s.ws.set i WState.looping }
  | pollEmpty {s : Sys} {i : Nat} :
      s.ws[i]? = some WState.looping → s.cbuf = 0 →
      Step ok s (Ev.pollEmpty i) { s with ws := s.ws.set i WState.writing }
  | takeCancel {s : Sys} {i : Nat} {c : Nat} :
      s.ws[i]? = some WState.looping → s.cbuf = c + 1 →
      Step ok s (Ev.takeCancel i)
        { s with ws := s.ws.set i WState.closing, cbuf := c }
  | writeBatch {s : Sys} {i : Nat} (res : CallRes) :
      s.ws[i]? = some WState.writing →
      Step ok s (Ev.writeBatchEv i res) { s with ws := s.ws.set i WState.sleeping }
  | sleepFinish {s : Sys} {i : Nat} :
      s.ws[i]? = some WState.sleeping →
      Step ok s (Ev.sleepFinish i) { s with ws := s.ws.set i WState.looping }
  | closeClient {s : Sys} {i : Nat} (res : CallRes) :
      s.ws[i]? = some WState.closing →
      Step ok s (Ev.closeEv i res) { s with ws := s.ws.set i WState.sendingDone }
  | sendDone {s : Sys} {i : Nat} {r : Nat} :
      s.ws[i]? = some WState.sendingDone → s.mainPC = MState.awaiting r →
      r < ok.length →
      Step ok s (Ev.sendDoneEv i)
        { s with ws := s.ws.set i WState.done, mainPC := MState.awaiting (r + 1) }

/-- A finite execution: a trace of labelled steps. -/
inductive Exec (ok : List Bool) : Sys → List Ev → Sys → Prop where
  | nil {s : Sys} : Exec ok s [] s
  | cons {s s1 s2 : Sys} {e : Ev} {tr : List Ev} :
      Step ok s e s1 → Exec ok s1 tr s2 → Exec ok s (e :: tr) s2

/-- A state reachable in some run of `startStress` with construction
outcomes `ok`. -/
def Reach (ok : List Bool) (s : Sys) : Prop :=
  ∃ tr, Exec ok (initSys ok) tr s

/- ----------------------------------------------------------------- -/
/- State predicates and channel accounting.                          -/
/- ----------------------------------------------------------------- -/

/-- Worker never constructed. -/
def isNotCons : WState → Bool
  | .notConstructed => true
  | _ => false

/-- Constructed worker that has not yet consumed a cancellation value. -/
def isPre : WState → Bool
  | .starting | .looping | .writing | .sleeping => true
  | _ => false

/-- Worker that has consumed its cancellation value (it is past the
`case <-w.Cancel` receive). -/
def isPostPoll : WState → Bool
  | .closing | .sendingDone | .done => true
  | _ => false

/-- Worker whose `Work` call has returned. -/
def isDoneSt : WState → Bool
  | .done => true
  | _ => false

/-- Number of sends the main goroutine has performed on `cancel`. -/
def sentMain (m : MState) (nw : Nat) : Nat :=
  match m with
  | .blockedTimer => 0
  | .cancelling k => k
  | .awaiting _ => nw
  | .returned => nw

/-- Number of sends the signal goroutine has performed on `cancel`. -/
def sentSig (sp : SState) (nw : Nat) : Nat :=
  match sp with
  | .waitingSig => 0
  | .scancel k => k
  | .sdone => nw

/-- Number of receives `await_workers` has performed on `done`. -/
def recvCount (m : MState) (nw : Nat) : Nat :=
  match m with
  | .awaiting r => r
  | .returned => nw
  | _ => 0

/- ----------------------------------------------------------------- -/
/- List counting helpers.                                            -/
/- ----------------------------------------------------------------- -/

lemma countP_set {α : Type} (p : α → Bool) :
    ∀ (l : List α) (i : Nat) (a v : α), l[i]? = some a →
      (l.set i v).countP p + (if p a then 1 else 0)
        = l.countP p + (if p v then 1 else 0)
  | [], i, a, v, h => by simp at h
  | hd :: tl, 0, a, v, h => by
      simp only [List.getElem?_cons_zero, Option.some.injEq] at h
      subst h
      simp only [List.set_cons_zero, List.countP_cons]
      omega
  | hd :: tl, i + 1, a, v, h => by
      simp only [List.getElem?_cons_succ] at h
      have ih := countP_set p tl i a v h
      simp only [List.set_cons_succ, List.countP_cons]
      omega

lemma countP_eq_of_pointwise {α β : Type} (p : α → Bool) (q : β → Bool) :
    ∀ (l1 : List α) (l2 : List β), l1.length = l2.length →
      (∀ (i : Nat) a b, l1[i]? = some a → l2[i]? = some b → (p a ↔ q b)) →
      l1.countP p = l2.countP q
  | [], [], _, _ => rfl
  | [], _ :: _, h, _ => by simp at h
  | _ :: _, [], h, _ => by simp at h
  | a :: l1, b :: l2, h, hpt => by
      have h0 : p a ↔ q b := hpt 0 a b (by simp) (by simp)
      have htl : ∀ (i : Nat) x y, l1[i]? = some x → l2[i]? = some y → (p x ↔ q y) := by
        intro i x y hx hy
        exact hpt (i + 1) x y (by simpa using hx) (by simpa using hy)
      have ih := countP_eq_of_pointwise p q l1 l2 (by simpa using h) htl
      simp only [List.countP_cons, ih]
      by_cases hpa : p a
      · simp [hpa, h0.mp hpa]
      · have hqb : ¬ q b = true := fun hq => hpa (h0.mpr hq)
        simp [hpa, hqb]

lemma wstate_partition : ∀ (l : List WState),
    l.countP isPre + l.countP isPostPoll + l.countP isNotCons = l.length
  | [] => rfl
  | w :: l => by
      have ih := wstate_partition l
      cases w <;>
        simp [List.countP_cons, isPre, isPostPoll, isNotCons] <;>
        omega

lemma countP_done_le_postPoll : ∀ (l : List WState),
    l.countP isDoneSt ≤ l.countP isPostPoll
  | [] => Nat.le_refl 0
  | w :: l => by
      have ih := countP_done_le_postPoll l
      cases w <;>
        simp [List.countP_cons, isDoneSt, isPostPoll] <;> omega

/- ----------------------------------------------------------------- -/
/- The global invariant.                                             -/
/- ----------------------------------------------------------------- -/

/-- Invariant of every reachable state of a `startStress` run:

* `len`: one worker slot per requested index;
* `cons_iff`: a slot holds `notConstructed` exactly when `NewWorker` failed
  for that index;
* `chan`: buffered cancellation values plus consumed ones equal the sends
  performed by the two `cancel_workers` callers;
* `recv`: the `await_workers` receive count equals the number of workers
  whose `w.Done <- true` has rendezvoused. -/
structure SysInv (ok : List Bool) (s : Sys) : Prop where
  len : s.ws.length = ok.length
  cons_iff : ∀ (i : Nat) a, s.ws[i]? = some a →
    (a = WState.notConstructed ↔ ok[i]? = some false)
  chan : s.cbuf + s.ws.countP isPostPoll
    = sentMain s.mainPC ok.length + sentSig s.sigPC ok.length
  recv : recvCount s.mainPC ok.length = s.ws.countP isDoneSt

lemma init_ws_countP_zero (p : WState → Bool)
    (h1 : p WState.starting = false) (h2 : p WState.notConstructed = false) :
    ∀ (ok : List Bool),
      (ok.map (fun b => if b then WState.starting
        else WState.notConstructed)).countP p = 0
  | [] => rfl
  | b :: ok => by
      have ih := init_ws_countP_zero p h1 h2 ok
      cases b <;> simp [List.countP_cons, h1, h2, ih]

lemma inv_init (ok : List Bool) : SysInv ok (initSys ok) := by
  refine ⟨?_, ?_, ?_, ?_⟩
  · simp [initSys]
  · intro i a h
    simp only [initSys, List.getElem?_map] at h
    cases hb : ok[i]? with
    | none => rw [hb] at h; simp at h
    | some b =>
      rw [hb] at h
      simp at h
      cases b <;> subst h <;> simp_all
  · simp [initSys, sentMain, sentSig, init_ws_countP_zero isPostPoll rfl rfl ok]
  · simp [initSys, recvCount, init_ws_countP_zero isDoneSt rfl rfl ok]

lemma cons_iff_set {ok : List Bool} {ws : List WState}
    (h : ∀ (i : Nat) a, ws[i]? = some a →
      (a = WState.notConstructed ↔ ok[i]? = some false))
    {j : Nat} {old : WState} (hold : ws[j]? = some old)
    (hOld : old ≠ WState.notConstructed) {new : WState}
    (hNew : new ≠ WState.notConstructed) :
    ∀ (i : Nat) a, (ws.set j new)[i]? = some a →
      (a = WState.notConstructed ↔ ok[i]? = some false) := by
  intro i a ha
  by_cases hij : i = j
  · subst hij
    have hlt : i < ws.length := (List.getElem?_eq_some_iff.mp hold).1
    rw [List.getElem?_set_self hlt] at ha
    have ha2 : new = a := by simpa using ha
    subst ha2
    constructor
    · intro hc; exact absurd hc hNew
    · intro hokf; exact absurd ((h i old hold).mpr hokf) hOld
  · rw [List.getElem?_set_ne (Ne.symm hij)] at ha
    exact h i a ha

lemma inv_step {ok : List Bool} {s s2 : Sys} {e : Ev}
    (hinv : SysInv ok s) (hst : Step ok s e s2) : SysInv ok s2 := by
  obtain ⟨hlen, hcons, hchan, hrecv⟩ := hinv
  cases hst with
  | timerFire h =>
      rw [h] at hchan hrecv
      refine ⟨hlen, hcons, ?_, ?_⟩
      · simp [sentMain] at hchan ⊢; omega
      · simpa [recvCount] using hrecv
  | mainCancelSend h hk hb =>
      rw [h] at hchan hrecv
      refine ⟨hlen, hcons, ?_, ?_⟩
      · simp [sentMain] at hchan ⊢; omega
      · simpa [recvCount] using hrecv
  | mainCancelFinish h =>
      rw [h] at hchan hrecv
      refine ⟨hlen, hcons, ?_, ?_⟩
      · simp [sentMain] at hchan ⊢; omega
      · simpa [recvCount] using hrecv
  | mainReturn h =>
      rw [h] at hchan hrecv
      refine ⟨hlen, hcons, ?_, ?_⟩
      · simp [sentMain] at hchan ⊢; omega
      · simpa [recvCount] using hrecv
  | sigArrive h =>
      rw [h] at hchan
      refine ⟨hlen, hcons, ?_, hrecv⟩
      simp [sentSig] at hchan ⊢; omega
  | sigCancelSend h hk hb =>
      rw [h] at hchan
      refine ⟨hlen, hcons, ?_, hrecv⟩
      simp [sentSig] at hchan ⊢; omega
  | sigCancelFinish h =>
      rw [h] at hchan
      refine ⟨hlen, hcons, ?_, hrecv⟩
      simp [sentSig] at hchan ⊢; omega
  | workerStart h =>
      have hp := countP_set isPostPoll _ _ _ WState.looping h
      have hd := countP_set isDoneSt _ _ _ WState.looping h
      simp [isPostPoll] at hp
      simp [isDoneSt] at hd
      refine ⟨by simpa using hlen,
        cons_iff_set hcons h (by decide) (by decide), ?_, ?_⟩
      · simp at hchan ⊢; omega
      · simp at hrecv ⊢; omega
  | pollEmpty h hb =>
      have hp := countP_set isPostPoll _ _ _ WState.writing h
      have hd := countP_set isDoneSt _ _ _ WState.writing h
      simp [isPostPoll] at hp
      simp [isDoneSt] at hd
      refine ⟨by simpa using hlen,
        cons_iff_set hcons h (by decide) (by decide), ?_, ?_⟩
      · simp at hchan ⊢; omega
      · simp at hrecv ⊢; omega
  | takeCancel h hb =>
      have hp := countP_set isPostPoll _ _ _ WState.closing h
      have hd := countP_set isDoneSt _ _ _ WState.closing h
      simp [isPostPoll] at hp
      simp [isDoneSt] at hd
      refine ⟨by simpa using hlen,
        cons_iff_set hcons h (by decide) (by decide), ?_, ?_⟩
      · simp at hchan ⊢; omega
      · simp at hrecv ⊢; omega
  | writeBatch res h =>
      have hp := countP_set isPostPoll _ _ _ WState.sleeping h
      have hd := countP_set isDoneSt _ _ _ WState.sleeping h
      simp [isPostPoll] at hp
      simp [isDoneSt] at hd
      refine ⟨by simpa using hlen,
        cons_iff_set hcons h (by decide) (by decide), ?_, ?_⟩
      · simp at hchan ⊢; omega
      · simp at hrecv ⊢; omega
  | sleepFinish h =>
      have hp := countP_set isPostPoll _ _ _ WState.looping h
      have hd := countP_set isDoneSt _ _ _ WState.looping h
      simp [isPostPoll] at hp
      simp [isDoneSt] at hd
      refine ⟨by simpa using hlen,
        cons_iff_set hcons h (by decide) (by decide), ?_, ?_⟩
      · simp at hchan ⊢; omega
      · simp at hrecv ⊢; omega
  | closeClient res h =>
      have hp := countP_set isPostPoll _ _ _ WState.sendingDone h
      have hd := countP_set isDoneSt _ _ _ WState.sendingDone h
      simp [isPostPoll] at hp
      simp [isDoneSt] at hd
      refine ⟨by simpa using hlen,
        cons_iff_set hcons h (by decide) (by decide), ?_, ?_⟩
      · simp at hchan ⊢; omega
      · simp at hrecv ⊢; omega
  | sendDone h hm hr =>
      have hp := countP_set isPostPoll _ _ _ WState.done h
      have hd := countP_set isDoneSt _ _ _ WState.done h
      simp [isPostPoll] at hp
      simp [isDoneSt] at hd
      rw [hm] at hchan hrecv
      refine ⟨by simpa using hlen,
        cons_iff_set hcons h (by decide) (by decide), ?_, ?_⟩
      · simp [sentMain] at hchan ⊢; omega
      · simp [recvCount] at hrecv ⊢; omega

lemma inv_exec {ok : List Bool} :
    ∀ {s tr s2}, SysInv ok s → Exec ok s tr s2 → SysInv ok s2 := by
  intro s tr s2 hinv hex
  induction hex with
  | nil => exact hinv
  | cons hst _ ih => exact ih (inv_step hinv hst)

lemma inv_reach {ok : List Bool} {s : Sys} (h : Reach ok s) : SysInv ok s := by
  rcases h with ⟨tr, hex⟩
  exact inv_exec (inv_init ok) hex

/- ----------------------------------------------------------------- -/
/- Consequences of the invariant at a returned state.                -/
/- ----------------------------------------------------------------- -/

lemma bool_partition : ∀ (l : List Bool),
    l.countP (fun b => b) + l.countP (fun b => !b) = l.length
  | [] => rfl
  | b :: l => by
      have ih := bool_partition l
      cases b <;> simp [List.countP_cons] <;> omega

lemma notCons_count_eq {ok : List Bool} {s : Sys} (hinv : SysInv ok s) :
    s.ws.countP isNotCons = ok.countP (fun b => !b) := by
  apply countP_eq_of_pointwise isNotCons (fun b => !b) s.ws ok hinv.len
  intro i a b ha hb
  have hiff := hinv.cons_iff i a ha
  constructor
  · intro hna
    have : a = WState.notConstructed := by cases a <;> simp_all [isNotCons]
    have := hiff.mp this
    rw [hb] at this
    simp at this
    simp [this]
  · intro hbf
    have hbf2 : b = false := by cases b <;> simp_all
    have : ok[i]? = some false := by rw [hb, hbf2]
    have := hiff.mpr this
    simp [this, isNotCons]

/-- At a returned state every requested worker was constructed, and every
worker slot is `done`. -/
lemma returned_facts {ok : List Bool} {s : Sys} (h : Reach ok s)
    (hret : s.mainPC = MState.returned) :
    ok.countP (fun b => b) = ok.length
      ∧ s.ws = List.replicate ok.length WState.done := by
  have hinv := inv_reach h
  have hrecv := hinv.recv
  rw [hret] at hrecv
  simp only [recvCount] at hrecv
  -- hrecv : ok.length = countP isDoneSt s.ws
  have hle1 := countP_done_le_postPoll s.ws
  have hpart := wstate_partition s.ws
  have hnc := notCons_count_eq hinv
  have hbp := bool_partition ok
  have hlen := hinv.len
  have hones : ok.countP (fun b => b) = ok.length := by omega
  have hdlen : s.ws.countP isDoneSt = s.ws.length := by omega
  refine ⟨hones, ?_⟩
  have hall := List.countP_eq_length.mp hdlen
  rw [List.eq_replicate_iff]
  refine ⟨by omega, ?_⟩
  intro w hw
  have := hall w hw
  cases w <;> simp_all [isDoneSt]

/- ----------------------------------------------------------------- -/
/- Per-worker event counting.                                        -/
/- ----------------------------------------------------------------- -/

/-- 1 when the worker at slot `i` satisfies `p`, else 0. -/
def indAt (p : WState → Bool) (i : Nat) (l : List WState) : Nat :=
  match l[i]? with
  | some w => if p w then 1 else 0
  | none => 0

lemma indAt_set_self (p : WState → Bool) {l : List WState} {j : Nat}
    {o : WState} (ho : l[j]? = some o) (v : WState) :
    indAt p j (l.set j v) = if p v then 1 else 0 := by
  unfold indAt
  rw [List.getElem?_set_self (List.getElem?_eq_some_iff.mp ho).1]

lemma indAt_set_ne (p : WState → Bool) {l : List WState} {i j : Nat}
    (hij : i ≠ j) (v : WState) :
    indAt p i (l.set j v) = indAt p i l := by
  unfold indAt
  rw [List.getElem?_set_ne (Ne.symm hij)]

lemma indAt_after_set (p : WState → Bool) (i : Nat) {j : Nat}
    {l : List WState} {o : WState} (ho : l[j]? = some o) (v : WState)
    (hpo : p o = p v) :
    indAt p i (l.set j v) = indAt p i l := by
  by_cases hij : i = j
  · subst hij
    rw [indAt_set_self p ho v]
    unfold indAt
    rw [ho]
    simp [hpo]
  · exact indAt_set_ne p hij v

/-- Does event `e` record worker `i` consuming a cancellation value? -/
def isTakeCancelEv (i : Nat) : Ev → Bool
  | .takeCancel j => j == i
  | _ => false

/-- Does event `e` record worker `i` closing its client? -/
def isCloseEv (i : Nat) : Ev → Bool
  | .closeEv j _ => j == i
  | _ => false

/-- Does event `e` record worker `i` rendezvousing on `done`? -/
def isSendDoneEv (i : Nat) : Ev → Bool
  | .sendDoneEv j => j == i
  | _ => false

lemma exec_count {ok : List Bool} (p : Ev → Bool) (g : Sys → Nat)
    (hstep : ∀ {s e s2}, Step ok s e s2 →
      g s2 = g s + (if p e then 1 else 0)) :
    ∀ {s tr s2}, Exec ok s tr s2 → g s2 = g s + tr.countP p := by
  intro s tr s2 hex
  induction hex with
  | nil => simp
  | cons hst hex2 ih =>
      have h1 := hstep hst
      rw [List.countP_cons]
      omega

/-- Worker has closed its client (it is at or past the done-send). -/
def isClosedSt : WState → Bool
  | .sendingDone | .done => true
  | _ => false

lemma step_doneInd {ok : List Bool} (i : Nat) {s : Sys} {e : Ev} {s2 : Sys}
    (hst : Step ok s e s2) :
    indAt isDoneSt i s2.ws
      = indAt isDoneSt i s.ws + (if isSendDoneEv i e then 1 else 0) := by
  cases hst with
  | timerFire h => simp [isSendDoneEv]
  | mainCancelSend h hk hb => simp [isSendDoneEv]
  | mainCancelFinish h => simp [isSendDoneEv]
  | mainReturn h => simp [isSendDoneEv]
  | sigArrive h => simp [isSendDoneEv]
  | sigCancelSend h hk hb => simp [isSendDoneEv]
  | sigCancelFinish h => simp [isSendDoneEv]
  | workerStart h =>
      rename_i j
      show indAt isDoneSt i (s.ws.set j WState.looping) = _
      rw [indAt_after_set isDoneSt i h WState.looping rfl]
      simp [isSendDoneEv]
  | pollEmpty h hb =>
      rename_i j
      show indAt isDoneSt i (s.ws.set j WState.writing) = _
      rw [indAt_after_set isDoneSt i h WState.writing rfl]
      simp [isSendDoneEv]
  | takeCancel h hb =>
      rename_i j c
      show indAt isDoneSt i (s.ws.set j WState.closing) = _
      rw [indAt_after_set isDoneSt i h WState.closing rfl]
      simp [isSendDoneEv]
  | writeBatch res h =>
      rename_i j
      show indAt isDoneSt i (s.ws.set j WState.sleeping) = _
      rw [indAt_after_set isDoneSt i h WState.sleeping rfl]
      simp [isSendDoneEv]
  | sleepFinish h =>
      rename_i j
      show indAt isDoneSt i (s.ws.set j WState.looping) = _
      rw [indAt_after_set isDoneSt i h WState.looping rfl]
      simp [isSendDoneEv]
  | closeClient res h =>
      rename_i j
      show indAt isDoneSt i (s.ws.set j WState.sendingDone) = _
      rw [indAt_after_set isDoneSt i h WState.sendingDone rfl]
      simp [isSendDoneEv]
  | sendDone h hm hr =>
      rename_i j r
      by_cases hij : i = j
      · subst hij
        show indAt isDoneSt i (s.ws.set i WState.done) = _
        rw [indAt_set_self isDoneSt h WState.done]
        unfold indAt
        rw [h]
        simp [isDoneSt, isSendDoneEv]
      · show indAt isDoneSt i (s.ws.set j WState.done) = _
        rw [indAt_set_ne isDoneSt hij WState.done]
        simp [isSendDoneEv, Ne.symm hij]

lemma step_closeInd {ok : List Bool} (i : Nat) {s : Sys} {e : Ev} {s2 : Sys}
    (hst : Step ok s e s2) :
    indAt isClosedSt i s2.ws
      = indAt isClosedSt i s.ws + (if isCloseEv i e then 1 else 0) := by
  cases hst with
  | timerFire h => simp [isCloseEv]
  | mainCancelSend h hk hb => simp [isCloseEv]
  | mainCancelFinish h => simp [isCloseEv]
  | mainReturn h => simp [isCloseEv]
  | sigArrive h => simp [isCloseEv]
  | sigCancelSend h hk hb => simp [isCloseEv]
  | sigCancelFinish h => simp [isCloseEv]
  | workerStart h =>
      rename_i j
      show indAt isClosedSt i (s.ws.set j WState.looping) = _
      rw [indAt_after_set isClosedSt i h WState.looping rfl]
      simp [isCloseEv]
  | pollEmpty h hb =>
      rename_i j
      show indAt isClosedSt i (s.ws.set j WState.writing) = _
      rw [indAt_after_set isClosedSt i h WState.writing rfl]
      simp [isCloseEv]
  | takeCancel h hb =>
      rename_i j c
      show indAt isClosedSt i (s.ws.set j WState.closing) = _
      rw [indAt_after_set isClosedSt i h WState.closing rfl]
      simp [isCloseEv]
  | writeBatch res h =>
      rename_i j
      show indAt isClosedSt i (s.ws.set j WState.sleeping) = _
      rw [indAt_after_set isClosedSt i h WState.sleeping rfl]
      simp [isCloseEv]
  | sleepFinish h =>
      rename_i j
      show indAt isClosedSt i (s.ws.set j WState.looping) = _
      rw [indAt_after_set isClosedSt i h WState.looping rfl]
      simp [isCloseEv]
  | closeClient res h =>
      rename_i j
      by_cases hij : i = j
      · subst hij
        show indAt isClosedSt i (s.ws.set i WState.sendingDone) = _
        rw [indAt_set_self isClosedSt h WState.sendingDone]
        unfold indAt
        rw [h]
        simp [isClosedSt, isCloseEv]
      · show indAt isClosedSt i (s.ws.set j WState.sendingDone) = _
        rw [indAt_set_ne isClosedSt hij WState.sendingDone]
        simp [isCloseEv, Ne.symm hij]
  | sendDone h hm hr =>
      rename_i j r
      show indAt isClosedSt i (s.ws.set j WState.done) = _
      rw [indAt_after_set isClosedSt i h WState.done rfl]
      simp [isCloseEv]

lemma step_postInd {ok : List Bool} (i : Nat) {s : Sys} {e : Ev} {s2 : Sys}
    (hst : Step ok s e s2) :
    indAt isPostPoll i s2.ws
      = indAt isPostPoll i s.ws + (if isTakeCancelEv i e then 1 else 0) := by
  cases hst with
  | timerFire h => simp [isTakeCancelEv]
  | mainCancelSend h hk hb => simp [isTakeCancelEv]
  | mainCancelFinish h => simp [isTakeCancelEv]
  | mainReturn h => simp [isTakeCancelEv]
  | sigArrive h => simp [isTakeCancelEv]
  | sigCancelSend h hk hb => simp [isTakeCancelEv]
  | sigCancelFinish h => simp [isTakeCancelEv]
  | workerStart h =>
      rename_i j
      show indAt isPostPoll i (s.ws.set j WState.looping) = _
      rw [indAt_after_set isPostPoll i h WState.looping rfl]
      simp [isTakeCancelEv]
  | pollEmpty h hb =>
      rename_i j
      show indAt isPostPoll i (s.ws.set j WState.writing) = _
      rw [indAt_after_set isPostPoll i h WState.writing rfl]
      simp [isTakeCancelEv]
  | takeCancel h hb =>
      rename_i j c
      by_cases hij : i = j
      · subst hij
        show indAt isPostPoll i (s.ws.set i WState.closing) = _
        rw [indAt_set_self isPostPoll h WState.closing]
        unfold indAt
        rw [h]
        simp [isPostPoll, isTakeCancelEv]
      · show indAt isPostPoll i (s.ws.set j WState.closing) = _
        rw [indAt_set_ne isPostPoll hij WState.closing]
        simp [isTakeCancelEv, Ne.symm hij]
  | writeBatch res h =>
      rename_i j
      show indAt isPostPoll i (s.ws.set j WState.sleeping) = _
      rw [indAt_after_set isPostPoll i h WState.sleeping rfl]
      simp [isTakeCancelEv]
  | sleepFinish h =>
      rename_i j
      show indAt isPostPoll i (s.ws.set j WState.looping) = _
      rw [indAt_after_set isPostPoll i h WState.looping rfl]
      simp [isTakeCancelEv]
  | closeClient res h =>
      rename_i j
      show indAt isPostPoll i (s.ws.set j WState.sendingDone) = _
      rw [indAt_after_set isPostPoll i h WState.sendingDone rfl]
      simp [isTakeCancelEv]
  | sendDone h hm hr =>
      rename_i j r
      show indAt isPostPoll i (s.ws.set j WState.done) = _
      rw [indAt_after_set isPostPoll i h WState.done rfl]
      simp [isTakeCancelEv]

lemma exec_sendDone_count {ok : List Bool} (i : Nat) {s : Sys} {tr : List Ev}
    {s2 : Sys} (hex : Exec ok s tr s2) :
    indAt isDoneSt i s2.ws
      = indAt isDoneSt i s.ws + tr.countP (isSendDoneEv i) :=
  exec_count (isSendDoneEv i) (fun st => indAt isDoneSt i st.ws)
    (fun hst => step_doneInd i hst) hex

lemma exec_close_count {ok : List Bool} (i : Nat) {s : Sys} {tr : List Ev}
    {s2 : Sys} (hex : Exec ok s tr s2) :
    indAt isClosedSt i s2.ws
      = indAt isClosedSt i s.ws + tr.countP (isCloseEv i) :=
  exec_count (isCloseEv i) (fun st => indAt isClosedSt i st.ws)
    (fun hst => step_closeInd i hst) hex

lemma exec_takeCancel_count {ok : List Bool} (i : Nat) {s : Sys} {tr : List Ev}
    {s2 : Sys} (hex : Exec ok s tr s2) :
    indAt isPostPoll i s2.ws
      = indAt isPostPoll i s.ws + tr.countP (isTakeCancelEv i) :=
  exec_count (isTakeCancelEv i) (fun st => indAt isPostPoll i st.ws)
    (fun hst => step_postInd i hst) hex

lemma exec_append {ok : List Bool} :
    ∀ {tr1 : List Ev} {s s2 : Sys} {tr2 : List Ev},
      Exec ok s (tr1 ++ tr2) s2 → ∃ s1, Exec ok s tr1 s1 ∧ Exec ok s1 tr2 s2
  | [], s, s2, tr2, h => ⟨s, Exec.nil, h⟩
  | e :: tr1, s, s2, tr2, h => by
      cases h with
      | cons hst hex =>
          rcases exec_append hex with ⟨s1, h1, h2⟩
          exact ⟨s1, Exec.cons hst h1, h2⟩

/- ----------------------------------------------------------------- -/
/- Support for the cancellation-latency claim.                       -/
/- ----------------------------------------------------------------- -/

/-- One of the two `cancel_workers` callers has completed all `nw` sends:
either the main goroutine is at (or past) `await_workers`, or the signal
goroutine has finished its send loop. -/
def broadcastComplete (s : Sys) : Prop :=
  (∃ r, s.mainPC = MState.awaiting r) ∨ s.mainPC = MState.returned
    ∨ s.sigPC = SState.sdone

lemma indAt_eq_of_get {p : WState → Bool} {l : List WState} {i : Nat}
    {w : WState} (h : l[i]? = some w) :
    indAt p i l = if p w then 1 else 0 := by
  unfold indAt
  rw [h]

lemma indAt_le_one (p : WState → Bool) (i : Nat) (l : List WState) :
    indAt p i l ≤ 1 := by
  unfold indAt
  cases l[i]? with
  | none => exact Nat.zero_le 1
  | some w =>
      show (if p w = true then 1 else 0) ≤ 1
      split <;> omega

/-- After a completed cancellation broadcast, the `cancel` buffer still holds
at least one value as long as some constructed worker has not consumed one. -/
lemma cbuf_pos_of_live {ok : List Bool} {s : Sys} (h : Reach ok s)
    (hb : broadcastComplete s) {i : Nat} {w : WState}
    (hw : s.ws[i]? = some w) (hpre : isPre w = true) : 0 < s.cbuf := by
  have hinv := inv_reach h
  have hchan := hinv.chan
  have hpart := wstate_partition s.ws
  have hnc := notCons_count_eq hinv
  have hbp := bool_partition ok
  have hlen := hinv.len
  have hmem : w ∈ s.ws := List.getElem?_mem hw
  have hprepos : 0 < s.ws.countP isPre :=
    List.countP_pos_iff.mpr ⟨w, hmem, hpre⟩
  have hcountTrue : ok.countP (fun b => b) ≤ ok.length :=
    List.countP_le_length (fun b => b)
  have hsent : ok.length
      ≤ sentMain s.mainPC ok.length + sentSig s.sigPC ok.length := by
    rcases hb with ⟨r, hr⟩ | hr | hr
    · rw [hr]; simp [sentMain]
    · rw [hr]; simp [sentMain]
    · rw [hr]; simp [sentSig]
  omega

/- ----------------------------------------------------------------- -/
/- Concrete executions used as witnesses.                            -/
/- ----------------------------------------------------------------- -/

/-- A complete run with one constructed worker in which the interrupt fires
first, the deadline timer fires afterwards (so both `cancel_workers` callers
run), the only write errors, and the close errors. -/
def demoTrace : List Ev :=
  [Ev.workerStart 0, Ev.pollEmpty 0, Ev.writeBatchEv 0 CallRes.err,
   Ev.sleepFinish 0, Ev.sigArrive, Ev.sigCancelSend, Ev.sigCancelFinish,
   Ev.takeCancel 0, Ev.closeEv 0 CallRes.err, Ev.timerFire,
   Ev.mainCancelSend, Ev.mainCancelFinish, Ev.sendDoneEv 0, Ev.mainReturn]

/-- Terminal state of `demoTrace`: the worker is done, the run has returned,
and one unconsumed cancellation value (from the second caller) remains
buffered. -/
def demoFinal : Sys :=
  { ws := [WState.done], mainPC := MState.returned,
    sigPC := SState.sdone, cbuf := 1 }

lemma exec_demo : Exec [true] (initSys [true]) demoTrace demoFinal := by
  refine Exec.cons (Step.workerStart (i := 0) (by decide))
    (Exec.cons (Step.pollEmpty (i := 0) (by decide) (by decide))
    (Exec.cons (Step.writeBatch (i := 0) CallRes.err (by decide))
    (Exec.cons (Step.sleepFinish (i := 0) (by decide))
    (Exec.cons (Step.sigArrive (by decide))
    (Exec.cons (Step.sigCancelSend (k := 0) (by decide) (by decide) (by decide))
    (Exec.cons (Step.sigCancelFinish (by decide))
    (Exec.cons (Step.takeCancel (i := 0) (c := 0) (by decide) (by decide))
    (Exec.cons (Step.closeClient (i := 0) CallRes.err (by decide))
    (Exec.cons (Step.timerFire (by decide))
    (Exec.cons (Step.mainCancelSend (k := 0) (by decide) (by decide) (by decide))
    (Exec.cons (Step.mainCancelFinish (by decide))
    (Exec.cons (Step.sendDone (i := 0) (r := 0) (by decide) (by decide) (by decide))
    (Exec.cons (Step.mainReturn (by decide))
    Exec.nil)))))))))))))

/-- A complete run with one constructed worker in which only the deadline
timer fires (no interrupt arrives) and all external calls succeed. -/
def demoTrace2 : List Ev :=
  [Ev.timerFire, Ev.mainCancelSend, Ev.mainCancelFinish, Ev.workerStart 0,
   Ev.takeCancel 0, Ev.closeEv 0 CallRes.ok, Ev.sendDoneEv 0, Ev.mainReturn]

/-- Terminal state of `demoTrace2`. -/
def demoFinal2 : Sys :=
  { ws := [WState.done], mainPC := MState.returned,
    sigPC := SState.waitingSig, cbuf := 0 }

lemma exec_demo2 : Exec [true] (initSys [true]) demoTrace2 demoFinal2 := by
  refine Exec.cons (Step.timerFire (by decide))
    (Exec.cons (Step.mainCancelSend (k := 0) (by decide) (by decide) (by decide))
    (Exec.cons (Step.mainCancelFinish (by decide))
    (Exec.cons (Step.workerStart (i := 0) (by decide))
    (Exec.cons (Step.takeCancel (i := 0) (c := 0) (by decide) (by decide))
    (Exec.cons (Step.closeClient (i := 0) CallRes.ok (by decide))
    (Exec.cons (Step.sendDone (i := 0) (r := 0) (by decide) (by decide) (by decide))
    (Exec.cons (Step.mainReturn (by decide))
    Exec.nil)))))))

/-- Prefix run that stops right after the main goroutine finished its
cancellation broadcast while the worker sits at the top of its loop. -/
def demoTrace3 : List Ev :=
  [Ev.timerFire, Ev.mainCancelSend, Ev.mainCancelFinish, Ev.workerStart 0]

/-- State after `demoTrace3`: broadcast complete, worker at the loop top,
one buffered cancellation value. -/
def demoMid3 : Sys :=
  { ws := [WState.looping], mainPC := MState.awaiting 0,
    sigPC := SState.waitingSig, cbuf := 1 }

lemma exec_demo3 : Exec [true] (initSys [true]) demoTrace3 demoMid3 := by
  refine Exec.cons (Step.timerFire (by decide))
    (Exec.cons (Step.mainCancelSend (k := 0) (by decide) (by decide) (by decide))
    (Exec.cons (Step.mainCancelFinish (by decide))
    (Exec.cons (Step.workerStart (i := 0) (by decide))
    Exec.nil)))

/- ----------------------------------------------------------------- -/
/- Claim theorems.                                                   -/
/- ----------------------------------------------------------------- -/

/-- C1 (amended): `startStress` waits for the *requested* number of
completion notifications (`await_workers` loops `nw = ok.length` times,
main.go lines 185–189), not for the number of successful constructions:
a run can return only if every requested worker was constructed
successfully, and at return the receive count equals `nw` and every worker
slot is done.  Consequently, when some construction fails the run never
returns (`c1_counterexample`). -/
theorem c1_await_uses_requested_count {ok : List Bool} {s : Sys}
    (h : Reach ok s) (hret : s.mainPC = MState.returned) :
    ok.countP (fun b => b) = ok.length
      ∧ recvCount s.mainPC ok.length = ok.length
      ∧ s.ws.countP isDoneSt = ok.length := by
  rcases returned_facts h hret with ⟨h1, h2⟩
  refine ⟨h1, by rw [hret]; rfl, ?_⟩
  rw [h2]
  simp [List.countP_replicate, isDoneSt]

/-- Witness for C1: a concrete complete run with one requested, one
constructed worker reaches `returned` and the conclusions evaluate. -/
theorem c1_witness :
    [true].countP (fun b => b) = [true].length
      ∧ recvCount demoFinal.mainPC [true].length = [true].length
      ∧ demoFinal.ws.countP isDoneSt = [true].length :=
  c1_await_uses_requested_count ⟨demoTrace, exec_demo⟩ rfl

/-- Counterexample to C1 as stated: with `N = 1` worker requested whose
construction fails (`ok = [false]`, so `N' = 0`), the claim says the run
receives the `N' = 0` completions and returns; in the code `await_workers`
still performs `nw = 1` receives on `done`, which can never complete — no
reachable state of this configuration has returned. -/
theorem c1_counterexample :
    ¬ ∃ s : Sys, Reach [false] s ∧ s.mainPC = MState.returned := by
  rintro ⟨s, hr, hret⟩
  rcases returned_facts hr hret with ⟨hones, _⟩
  revert hones
  decide

/-- C2: in any complete run in which both the deadline timer and an external
interrupt fired (so both `cancel_workers` callers ran, sending `2·nw`
cancellation values in total), there is still no double shutdown: every
constructed worker closes its client exactly once and rendezvouses on `done`
exactly once, and the completion count at return is exactly `nw` — the
second trigger changes nothing for the workers. -/
theorem c2_double_trigger_no_double_shutdown {ok : List Bool} {tr : List Ev}
    {s : Sys} (hex : Exec ok (initSys ok) tr s)
    (hret : s.mainPC = MState.returned)
    (htimer : Ev.timerFire ∈ tr) (hsig : Ev.sigArrive ∈ tr) :
    (∀ (i : Nat), ok[i]? = some true →
      tr.countP (isCloseEv i) = 1 ∧ tr.countP (isSendDoneEv i) = 1)
      ∧ s.ws.countP isDoneSt = ok.length := by
  have hreach : Reach ok s := ⟨tr, hex⟩
  rcases returned_facts hreach hret with ⟨hones, hrep⟩
  have hcnt : s.ws.countP isDoneSt = ok.length := by
    rw [hrep]; simp [List.countP_replicate, isDoneSt]
  refine ⟨?_, hcnt⟩
  intro i hok
  have hi : i < ok.length := (List.getElem?_eq_some_iff.mp hok).1
  have hfin : s.ws[i]? = some WState.done := by
    rw [hrep]; exact List.getElem?_replicate_of_lt hi
  have hinit : (initSys ok).ws[i]? = some WState.starting := by
    simp [initSys, List.getElem?_map, hok]
  have hc := exec_close_count i hex
  have hd := exec_sendDone_count i hex
  rw [indAt_eq_of_get hinit, indAt_eq_of_get hfin] at hc
  rw [indAt_eq_of_get hinit, indAt_eq_of_get hfin] at hd
  simp [isClosedSt, isDoneSt] at hc hd
  exact ⟨by omega, by omega⟩

/-- Witness for C2: the concrete run `demoTrace` contains both `timerFire`
and `sigArrive`, and its counts evaluate as the theorem states. -/
theorem c2_witness :
    (∀ (i : Nat), [true][i]? = some true →
      demoTrace.countP (isCloseEv i) = 1
        ∧ demoTrace.countP (isSendDoneEv i) = 1)
      ∧ demoFinal.ws.countP isDoneSt = [true].length :=
  c2_double_trigger_no_double_shutdown exec_demo rfl (by decide) (by decide)

/-- C3: a run whose shutdown was triggered by the deadline timer alone and a
run in which an external interrupt fired produce the same terminal worker
state: in both, the run returns only with every worker completed (all slots
`done`, completion count `nw`). -/
theorem c3_shutdown_sources_equivalent {ok : List Bool}
    {tr1 tr2 : List Ev} {s1 s2 : Sys}
    (h1 : Exec ok (initSys ok) tr1 s1) (h2 : Exec ok (initSys ok) tr2 s2)
    (hr1 : s1.mainPC = MState.returned) (hr2 : s2.mainPC = MState.returned)
    (hnosig : Ev.sigArrive ∉ tr1) (hsig : Ev.sigArrive ∈ tr2) :
    s1.ws = s2.ws ∧ (∀ w ∈ s1.ws, w = WState.done)
      ∧ s1.ws.countP isDoneSt = ok.length
      ∧ s2.ws.countP isDoneSt = ok.length := by
  rcases returned_facts ⟨tr1, h1⟩ hr1 with ⟨_, e1⟩
  rcases returned_facts ⟨tr2, h2⟩ hr2 with ⟨_, e2⟩
  refine ⟨by rw [e1, e2], ?_, ?_, ?_⟩
  · rw [e1]
    intro w hw
    exact List.eq_of_mem_replicate hw
  · rw [e1]; simp [List.countP_replicate, isDoneSt]
  · rw [e2]; simp [List.countP_replicate, isDoneSt]

/-- Witness for C3: `demoTrace2` is a timer-only run, `demoTrace` a run with
an interrupt; both reach the same terminal worker state. -/
theorem c3_witness :
    demoFinal2.ws = demoFinal.ws ∧ (∀ w ∈ demoFinal2.ws, w = WState.done)
      ∧ demoFinal2.ws.countP isDoneSt = [true].length
      ∧ demoFinal.ws.countP isDoneSt = [true].length :=
  c3_shutdown_sources_equivalent exec_demo2 exec_demo rfl rfl
    (by decide) (by decide)

/-- C4: in any complete run — even one in which every `w.Write()` call
returned an error — each constructed worker rendezvouses on `done` exactly
once and finishes; its only exit from the loop is consuming a cancellation
value (exactly one `takeCancel`), and a write returning an error leaves the
worker continuing to the sleep, never terminating it. -/
theorem c4_write_errors_never_kill_worker {ok : List Bool} {tr : List Ev}
    {s : Sys} {i : Nat} (hex : Exec ok (initSys ok) tr s)
    (hallerr : ∀ (j : Nat) (res : CallRes),
      Ev.writeBatchEv j res ∈ tr → res = CallRes.err)
    (hret : s.mainPC = MState.returned) (hok : ok[i]? = some true) :
    tr.countP (isSendDoneEv i) = 1 ∧ tr.countP (isTakeCancelEv i) = 1
      ∧ s.ws[i]? = some WState.done
      ∧ (∀ (sa sb : Sys) (res : CallRes),
          Step ok sa (Ev.writeBatchEv i res) sb →
            sb.ws[i]? = some WState.sleeping) := by
  have hreach : Reach ok s := ⟨tr, hex⟩
  rcases returned_facts hreach hret with ⟨hones, hrep⟩
  have hi : i < ok.length := (List.getElem?_eq_some_iff.mp hok).1
  have hfin : s.ws[i]? = some WState.done := by
    rw [hrep]; exact List.getElem?_replicate_of_lt hi
  have hinit : (initSys ok).ws[i]? = some WState.starting := by
    simp [initSys, List.getElem?_map, hok]
  have hd := exec_sendDone_count i hex
  have hp := exec_takeCancel_count i hex
  rw [indAt_eq_of_get hinit, indAt_eq_of_get hfin] at hd
  rw [indAt_eq_of_get hinit, indAt_eq_of_get hfin] at hp
  simp [isDoneSt, isPostPoll] at hd hp
  refine ⟨by omega, by omega, hfin, ?_⟩
  intro sa sb res hstep
  cases hstep with
  | writeBatch res2 hw =>
      exact List.getElem?_set_self (List.getElem?_eq_some_iff.mp hw).1

/-- Witness for C4: in `demoTrace` the only write event errors; the worker
still completes exactly once, via the cancellation path. -/
theorem c4_witness :
    demoTrace.countP (isSendDoneEv 0) = 1
      ∧ demoTrace.countP (isTakeCancelEv 0) = 1
      ∧ demoFinal.ws[0]? = some WState.done
      ∧ (∀ (sa sb : Sys) (res : CallRes),
          Step [true] sa (Ev.writeBatchEv 0 res) sb →
            sb.ws[0]? = some WState.sleeping) :=
  c4_write_errors_never_kill_worker exec_demo
    (by
      intro j res hmem
      simp [demoTrace] at hmem
      exact hmem.2)
    rfl (by decide)

lemma get_done_of_indAt_one {l : List WState} {i : Nat}
    (h : indAt isDoneSt i l = 1) : l[i]? = some WState.done := by
  unfold indAt at h
  cases hm : l[i]? with
  | none => rw [hm] at h; exact absurd h (by simp)
  | some w =>
      rw [hm] at h
      cases w <;> simp_all [isDoneSt]

/-- C8: in any complete run — even one whose `Client.Close()` calls all
errored — a constructed worker closes its client exactly once, rendezvouses
on `done` exactly once and finishes; in every prefix of the run its
done-send comes only after its close; and a close returning an error still
moves the worker to the done-send (it is never blocked or failed by it). -/
theorem c8_close_error_does_not_block_shutdown {ok : List Bool}
    {tr : List Ev} {s : Sys} {i : Nat} (hex : Exec ok (initSys ok) tr s)
    (hret : s.mainPC = MState.returned) (hok : ok[i]? = some true)
    (hcloseerr : ∀ res, Ev.closeEv i res ∈ tr → res = CallRes.err) :
    tr.countP (isCloseEv i) = 1 ∧ tr.countP (isSendDoneEv i) = 1
      ∧ s.ws[i]? = some WState.done
      ∧ (∀ tr1 tr2, tr = tr1 ++ tr2 → 0 < tr1.countP (isSendDoneEv i) →
          tr1.countP (isCloseEv i) = 1)
      ∧ (∀ (sa sb : Sys) (res : CallRes),
          Step ok sa (Ev.closeEv i res) sb →
            sb.ws[i]? = some WState.sendingDone) := by
  have hreach : Reach ok s := ⟨tr, hex⟩
  rcases returned_facts hreach hret with ⟨hones, hrep⟩
  have hi : i < ok.length := (List.getElem?_eq_some_iff.mp hok).1
  have hfin : s.ws[i]? = some WState.done := by
    rw [hrep]; exact List.getElem?_replicate_of_lt hi
  have hinit : (initSys ok).ws[i]? = some WState.starting := by
    simp [initSys, List.getElem?_map, hok]
  have hc := exec_close_count i hex
  have hd := exec_sendDone_count i hex
  rw [indAt_eq_of_get hinit, indAt_eq_of_get hfin] at hc
  rw [indAt_eq_of_get hinit, indAt_eq_of_get hfin] at hd
  simp [isClosedSt, isDoneSt] at hc hd
  refine ⟨by omega, by omega, hfin, ?_, ?_⟩
  · intro tr1 tr2 heq hpos
    subst heq
    rcases exec_append hex with ⟨m, hm1, hm2⟩
    have hd1 := exec_sendDone_count i hm1
    rw [indAt_eq_of_get hinit] at hd1
    simp [isDoneSt] at hd1
    have hle := indAt_le_one isDoneSt i m.ws
    have h1 : indAt isDoneSt i m.ws = 1 := by omega
    have hmdone := get_done_of_indAt_one h1
    have hc1 := exec_close_count i hm1
    rw [indAt_eq_of_get hinit, indAt_eq_of_get hmdone] at hc1
    simp [isClosedSt] at hc1
    omega
  · intro sa sb res hstep
    cases hstep with
    | closeClient res2 hw =>
        exact List.getElem?_set_self (List.getElem?_eq_some_iff.mp hw).1

/-- Witness for C8: in `demoTrace` the only close event errors; the worker
still sends `done` exactly once, after the close. -/
theorem c8_witness :
    demoTrace.countP (isCloseEv 0) = 1
      ∧ demoTrace.countP (isSendDoneEv 0) = 1
      ∧ demoFinal.ws[0]? = some WState.done
      ∧ (∀ tr1 tr2, demoTrace = tr1 ++ tr2 →
          0 < tr1.countP (isSendDoneEv 0) → tr1.countP (isCloseEv 0) = 1)
      ∧ (∀ (sa sb : Sys) (res : CallRes),
          Step [true] sa (Ev.closeEv 0 res) sb →
            sb.ws[0]? = some WState.sendingDone) :=
  c8_close_error_does_not_block_shutdown exec_demo rfl (by decide)
    (by
      intro res hmem
      simp [demoTrace] at hmem
      exact hmem)

/-- C6: the cancellation poll sits at the top of every loop iteration, before
any write: a write step is possible only from the `writing` state, which is
entered only by a poll that found the buffer empty; and once a
`cancel_workers` broadcast has completed, the buffer is non-empty for every
live worker, so no worker can take the `default` branch again — a worker at
the loop top can only consume the cancellation value, and one in `writing`
or `sleeping` reaches the top after at most its in-flight write and one
sleep. -/
theorem c6_cancellation_polled_at_loop_top {ok : List Bool} {s : Sys}
    (h : Reach ok s) (hb : broadcastComplete s) {i : Nat} {w : WState}
    (hw : s.ws[i]? = some w)
    (hlive : w = WState.looping ∨ w = WState.writing ∨ w = WState.sleeping) :
    0 < s.cbuf
      ∧ (∀ (j : Nat) (s3 : Sys), ¬ Step ok s (Ev.pollEmpty j) s3)
      ∧ (w = WState.looping → ∃ s3, Step ok s (Ev.takeCancel i) s3)
      ∧ (∀ (sa sb : Sys) (j : Nat) (res : CallRes),
          Step ok sa (Ev.writeBatchEv j res) sb →
            sa.ws[j]? = some WState.writing)
      ∧ (∀ (sa sb : Sys) (j : Nat), Step ok sa (Ev.pollEmpty j) sb →
          sa.cbuf = 0) := by
  have hpre : isPre w = true := by rcases hlive with rfl | rfl | rfl <;> rfl
  have hpos := cbuf_pos_of_live h hb hw hpre
  refine ⟨hpos, ?_, ?_, ?_, ?_⟩
  · intro j s3 hstep
    cases hstep with
    | pollEmpty hj hc => omega
  · intro hwl
    subst hwl
    exact ⟨_, Step.takeCancel (c := s.cbuf - 1) hw (by omega)⟩
  · intro sa sb j res hstep
    cases hstep with
    | writeBatch res2 hj => exact hj
  · intro sa sb j hstep
    cases hstep with
    | pollEmpty hj hc => exact hc

/-- Witness for C6: after `demoTrace3` the broadcast is complete and the
worker sits at the loop top; the poll is forced to observe cancellation. -/
theorem c6_witness :
    0 < demoMid3.cbuf
      ∧ (∀ (j : Nat) (s3 : Sys), ¬ Step [true] demoMid3 (Ev.pollEmpty j) s3)
      ∧ (WState.looping = WState.looping →
          ∃ s3, Step [true] demoMid3 (Ev.takeCancel 0) s3)
      ∧ (∀ (sa sb : Sys) (j : Nat) (res : CallRes),
          Step [true] sa (Ev.writeBatchEv j res) sb →
            sa.ws[j]? = some WState.writing)
      ∧ (∀ (sa sb : Sys) (j : Nat), Step [true] sa (Ev.pollEmpty j) sb →
          sa.cbuf = 0) :=
  c6_cancellation_polled_at_loop_top ⟨demoTrace3, exec_demo3⟩
    (Or.inl ⟨0, rfl⟩) (by decide) (Or.inl rfl)

/-- C5: for any count, host tag and pseudo-random draws in their documented
ranges (`rand.Intn(4) < 4`, `rand.Float64() ∈ [0,1)`), one generated batch
has exactly `count` points, each with measurement `"cpu_usage"`, the given
host tag, a region from the fixed region set, `idle ∈ [0, 100)` and
`idle + busy = 100` (exact in the rational model, hence within
floating-point tolerance in the code). -/
theorem c5_generate_batch_shape (count : Nat) (host : String)
    (ridx : Nat → Nat) (urand : Nat → ℚ)
    (hridx : ∀ n, ridx n < 4) (hurand : ∀ n, 0 ≤ urand n ∧ urand n < 1) :
    (generate count host ridx urand).length = count
      ∧ ∀ p ∈ generate count host ridx urand,
          p.measurement = "cpu_usage" ∧ p.cpuTag = "cpu-total"
            ∧ p.hostTag = host ∧ p.regionTag ∈ regions
            ∧ 0 ≤ p.idle ∧ p.idle < 100 ∧ p.idle + p.busy = 100 := by
  constructor
  · simp [generate]
  · intro p hp
    simp only [generate, List.mem_map] at hp
    rcases hp with ⟨n, _, rfl⟩
    have hr := hridx n
    have hu := hurand n
    refine ⟨rfl, rfl, rfl, ?_, ?_, ?_, ?_⟩
    · have hlen : ridx n < regions.length := by simpa [regions] using hr
      show regions.getD (ridx n) "" ∈ regions
      rw [List.getD_eq_getElem?_getD, List.getElem?_eq_getElem hlen]
      exact List.getElem_mem hlen
    · show (0 : ℚ) ≤ urand n * 100
      exact mul_nonneg hu.1 (by norm_num)
    · show urand n * 100 < 100
      nlinarith [hu.1, hu.2]
    · show urand n * 100 + (100 - urand n * 100) = 100
      ring

/-- Witness for C5 at `count = 3`, host `"h"`, region draw `n % 4` and
uniform draw constantly `1/2`. -/
theorem c5_witness :
    (∀ n : Nat, n % 4 < 4)
      ∧ ((generate 3 "h" (fun n => n % 4) (fun _ => 1/2)).length = 3
        ∧ ∀ p ∈ generate 3 "h" (fun n => n % 4) (fun _ => 1/2),
            p.measurement = "cpu_usage" ∧ p.cpuTag = "cpu-total"
              ∧ p.hostTag = "h" ∧ p.regionTag ∈ regions
              ∧ 0 ≤ p.idle ∧ p.idle < 100 ∧ p.idle + p.busy = 100) :=
  ⟨fun n => Nat.mod_lt n (by norm_num),
   c5_generate_batch_shape 3 "h" (fun n => n % 4) (fun _ => 1/2)
     (fun n => Nat.mod_lt n (by norm_num))
     (fun _ => ⟨by norm_num, by norm_num⟩)⟩

/-- C7 fails on the code: the deadline timer is armed with
`time.Second * time.Duration(to)` (main.go line 212), and Go's float-to-
integer conversion discards the fraction, so at the default
`--timeout 66.6` the timer is armed with exactly 66 s, not 66.6 s — even
though the flag's own usage text says "fractions allowed".  The worker
interval conversion (`time.Duration(interval*1000) * time.Millisecond`,
line 152) keeps the fraction: at the default `--interval 1.3` it yields
exactly 1.3 s. -/
theorem c7_deadline_timer_truncates_fraction :
    deadlineTimerNanos (333/5 : ℚ) = 66 * secondNs
      ∧ ((deadlineTimerNanos (333/5 : ℚ) : ℚ) ≠ exactNanos (333/5 : ℚ))
      ∧ workerIntervalNanos (13/10 : ℚ) = 1300 * millisecondNs
      ∧ ((workerIntervalNanos (13/10 : ℚ) : ℚ) = exactNanos (13/10 : ℚ)) := by
  have h1 : goTruncToInt (333/5 : ℚ) = 66 := by
    rw [goTruncToInt, if_pos (by norm_num)]
    norm_num
  have h2 : goTruncToInt ((13/10 : ℚ) * 1000) = 1300 := by
    rw [goTruncToInt, if_pos (by norm_num)]
    norm_num
  refine ⟨?_, ?_, ?_, ?_⟩
  · rw [deadlineTimerNanos, h1, secondNs]; norm_num
  · rw [deadlineTimerNanos, h1, secondNs, exactNanos]; norm_num
  · rw [workerIntervalNanos, h2, millisecondNs]
  · rw [workerIntervalNanos, h2, millisecondNs, exactNanos]; norm_num

/-- C9: `startStress` validates its configuration before creating channels
or launching workers: an empty URL yields exit error code 1 (checked
first), a non-empty URL with an empty database yields exit error code 2,
and in either case control never reaches the launch phase. -/
theorem c9_validation_rejects_before_launch (url db : String) (nw : Nat) :
    (url = "" → startStressValidate url db nw
        = StressOutcome.exitError "You must specify a URL" 1)
      ∧ (url ≠ "" → db = "" → startStressValidate url db nw
        = StressOutcome.exitError "You must specify a database" 2)
      ∧ ((url = "" ∨ db = "") →
          ∀ k, startStressValidate url db nw ≠ StressOutcome.launched k) := by
  refine ⟨?_, ?_, ?_⟩
  · intro h
    simp [startStressValidate, h]
  · intro h1 h2
    simp [startStressValidate, h1, h2]
  · intro h k
    rcases h with h | h
    · simp [startStressValidate, h]
    · by_cases hu : url = ""
      · simp [startStressValidate, hu]
      · simp [startStressValidate, hu, h]

/-- Witness for C9 at concrete configurations. -/
theorem c9_witness :
    startStressValidate "" "metrics" 4
        = StressOutcome.exitError "You must specify a URL" 1
      ∧ startStressValidate "http://localhost:8086" "" 4
        = StressOutcome.exitError "You must specify a database" 2 :=
  ⟨(c9_validation_rejects_before_launch "" "metrics" 4).1 rfl,
   (c9_validation_rejects_before_launch "http://localhost:8086" "" 4).2.1
     (by decide) rfl⟩

/-- C10: the `Work` loop mutates no field of the `Worker` value: after any
number of loop iterations, and through the cancellation path, every field
(client handle, hostname, database, points per batch, interval, and the two
channel handles) equals its value at construction. -/
theorem c10_work_loop_frame (w : WorkerRec) (n : Nat) :
    (workLoop w n).client = w.client
      ∧ (workLoop w n).hostname = w.hostname
      ∧ (workLoop w n).db = w.db
      ∧ (workLoop w n).numPoints = w.numPoints
      ∧ (workLoop w n).interval = w.interval
      ∧ (workLoop w n).doneCh = w.doneCh
      ∧ (workLoop w n).cancelCh = w.cancelCh
      ∧ (workCancelPath (workLoop w n)).1 = w := by
  have hW : ∀ (m : Nat) (v : WorkerRec), workLoop v m = v := by
    intro m
    induction m with
    | zero => intro v; rfl
    | succ k ih => intro v; exact ih v
  rw [hW]
  exact ⟨rfl, rfl, rfl, rfl, rfl, rfl, rfl, rfl⟩
